import Mathlib

/-!
Shallow embedding of the HTTP datetime parser library
(src/http_datetime_parser.c / src/http_datetime_parser.h).

C `int` values are modelled as `Int`; C truncating division `/` and
remainder `%` are modelled as `Int.tdiv` and `Int.tmod`.  The in-place
mutations of `arcdate_t` are modelled as pure functions from `Arcdate`
to `Arcdate`.
-/

/-- Table `month_days` from the source: days in each month of a
non-leap year. -/
def month_days : List Int := [31, 28, 31, 30, 31, 30, 31, 31, 30, 31, 30, 31]

/-- Table `weekday_names` from the source. -/
def weekday_names : List String := ["Sun", "Mon", "Tue", "Wed", "Thu", "Fri", "Sat"]

/-- Table `month_names` from the source. -/
def month_names : List String :=
  ["Jan", "Feb", "Mar", "Apr", "May", "Jun", "Jul", "Aug", "Sep", "Oct", "Nov", "Dec"]

/-- Embedding of `is_leap_year`.  C `%` on `int` is truncating
remainder, i.e. `Int.tmod`. -/
def is_leap_year (year : Int) : Bool :=
  if Int.tmod year 4 != 0 then false
  else if Int.tmod year 100 != 0 then true
  else if Int.tmod year 400 != 0 then false
  else true

/-- Embedding of `days_in_month`.  The C code reads
`month_days[month - 1]`, which is undefined behaviour when `month` is
outside `1..12`; the embedding totalizes the out-of-range read with a
default of `31` (the library only ever calls this with `month` in
range, which all theorems below respect). -/
def days_in_month (month year : Int) : Int :=
  if month == 2 then (if is_leap_year year then 29 else 28)
  else month_days.getD (month - 1).toNat 31

/-- Helper for the linear scans in `parse_month` / `parse_weekday`:
first index (starting at `i`) whose entry compares equal to `str`,
mirroring the C `for` loop over the name table. -/
def name_index (str : String) : List String → Nat → Option Nat
  | [], _ => none
  | nm :: rest, i => if nm == str then some i else name_index str rest (i + 1)

/-- Embedding of `parse_month`: first matching index plus one, with
default January (1) when no table entry matches. -/
def parse_month (str : String) : Int :=
  match name_index str month_names 0 with
  | some i => (i : Int) + 1
  | none => 1

/-- Embedding of `parse_weekday`: first matching index, with default
Sunday (0) when no table entry matches. -/
def parse_weekday (str : String) : Int :=
  match name_index str weekday_names 0 with
  | some i => (i : Int)
  | none => 0

/-- Embedding of the `arcdate_t` struct. -/
structure Arcdate where
  year : Int
  month : Int
  day : Int
  hour : Int
  minute : Int
  second : Int
  weekday : Int
  gmt_offset : Int
deriving Repr, DecidableEq

/-- Body of the first `while` loop of `add_days` (day overflows the
current month): subtract the month length, advance the month (rolling
the year at month 13) and advance the weekday by one step. -/
def roll_fwd (d : Arcdate) : Arcdate :=
  { d with day := d.day - days_in_month d.month d.year
           month := if 12 < d.month + 1 then 1 else d.month + 1
           year := if 12 < d.month + 1 then d.year + 1 else d.year
           weekday := Int.tmod (d.weekday + 1) 7 }

/-- Body of the second `while` loop of `add_days` (day below 1):
retreat the month (borrowing from the year at month 0), add the new
month's length to the day and retreat the weekday by one step
(computed as `+ 6` mod 7 in the source). -/
def roll_bwd (d : Arcdate) : Arcdate :=
  { d with day := d.day + days_in_month (if d.month - 1 < 1 then 12 else d.month - 1)
                    (if d.month - 1 < 1 then d.year - 1 else d.year)
           month := if d.month - 1 < 1 then 12 else d.month - 1
           year := if d.month - 1 < 1 then d.year - 1 else d.year
           weekday := Int.tmod (d.weekday + 6) 7 }

/-- First `while` loop of `add_days`. -/
def add_days_loop1 (d : Arcdate) : Arcdate :=
  if days_in_month d.month d.year < d.day then
    add_days_loop1 (roll_fwd d)
  else d
termination_by d.day.toNat
decreasing_by
  have hpos : 0 < days_in_month d.month d.year := by
    unfold days_in_month
    split
    · split <;> norm_num
    · rcases lt_or_ge (d.month - 1).toNat 12 with h | h
      · interval_cases _h2 : (d.month - 1).toNat <;> norm_num [month_days]
      · rw [List.getD_eq_default]
        · norm_num
        · simp only [month_days, List.length_cons, List.length_nil]
          omega
  simp only [roll_fwd]
  omega

/-- Second `while` loop of `add_days`. -/
def add_days_loop2 (d : Arcdate) : Arcdate :=
  if d.day < 1 then
    add_days_loop2 (roll_bwd d)
  else d
termination_by (1 - d.day).toNat
decreasing_by
  have hpos : 0 < days_in_month (if d.month - 1 < 1 then 12 else d.month - 1)
      (if d.month - 1 < 1 then d.year - 1 else d.year) := by
    generalize (if d.month - 1 < 1 then (12 : Int) else d.month - 1) = m
    generalize (if d.month - 1 < 1 then d.year - 1 else d.year) = y
    unfold days_in_month
    split
    · split <;> norm_num
    · rcases lt_or_ge (m - 1).toNat 12 with h | h
      · interval_cases _h2 : (m - 1).toNat <;> norm_num [month_days]
      · rw [List.getD_eq_default]
        · norm_num
        · simp only [month_days, List.length_cons, List.length_nil]
          omega
  simp only [roll_bwd]
  omega

/-- Iteration count of the first `while` loop of `add_days`. -/
def loop1_count (d : Arcdate) : Nat :=
  if days_in_month d.month d.year < d.day then
    loop1_count (roll_fwd d) + 1
  else 0
termination_by d.day.toNat
decreasing_by
  have hpos : 0 < days_in_month d.month d.year := by
    unfold days_in_month
    split
    · split <;> norm_num
    · rcases lt_or_ge (d.month - 1).toNat 12 with h | h
      · interval_cases _h2 : (d.month - 1).toNat <;> norm_num [month_days]
      · rw [List.getD_eq_default]
        · norm_num
        · simp only [month_days, List.length_cons, List.length_nil]
          omega
  simp only [roll_fwd]
  omega

/-- Iteration count of the second `while` loop of `add_days`. -/
def loop2_count (d : Arcdate) : Nat :=
  if d.day < 1 then
    loop2_count (roll_bwd d) + 1
  else 0
termination_by (1 - d.day).toNat
decreasing_by
  have hpos : 0 < days_in_month (if d.month - 1 < 1 then 12 else d.month - 1)
      (if d.month - 1 < 1 then d.year - 1 else d.year) := by
    generalize (if d.month - 1 < 1 then (12 : Int) else d.month - 1) = m
    generalize (if d.month - 1 < 1 then d.year - 1 else d.year) = y
    unfold days_in_month
    split
    · split <;> norm_num
    · rcases lt_or_ge (m - 1).toNat 12 with h | h
      · interval_cases _h2 : (m - 1).toNat <;> norm_num [month_days]
      · rw [List.getD_eq_default]
        · norm_num
        · simp only [month_days, List.length_cons, List.length_nil]
          omega
  simp only [roll_bwd]
  omega

/-- Embedding of `add_days`: add the delta to the day field, then run
the two normalization loops in sequence. -/
def add_days (d : Arcdate) (days : Int) : Arcdate :=
  add_days_loop2 (add_days_loop1 { d with day := d.day + days })

/-- Embedding of `add_hours`.  Note the carry correction of the
source: the truncating quotient is decremented whenever
`total_hours < 0` (not merely when the truncating remainder is
negative). -/
def add_hours (d : Arcdate) (hours : Int) : Arcdate :=
  let total_hours := d.hour + hours
  let days_change := Int.tdiv total_hours 24
  let days_change := if total_hours < 0 then days_change - 1 else days_change
  add_days { d with hour := Int.tmod (Int.tmod total_hours 24 + 24) 24 } days_change

/-- Embedding of `add_minutes`. -/
def add_minutes (d : Arcdate) (minutes : Int) : Arcdate :=
  let total_minutes := d.minute + minutes
  let hours_change := Int.tdiv total_minutes 60
  let hours_change := if total_minutes < 0 then hours_change - 1 else hours_change
  add_hours { d with minute := Int.tmod (Int.tmod total_minutes 60 + 60) 60 } hours_change

/-- Embedding of `add_years`: shift the year and clamp February 29 to
28 when the new year is not leap. -/
def add_years (d : Arcdate) (years : Int) : Arcdate :=
  let d := { d with year := d.year + years }
  if d.month == 2 && d.day == 29 && !is_leap_year d.year then
    { d with day := 28 }
  else d

/-- Embedding of `add_months`: wrap the zero-based month, apply the
year delta through `add_years`, then clamp the day to the new month's
length. -/
def add_months (d : Arcdate) (months : Int) : Arcdate :=
  let total_months := d.month + months - 1
  let years_change := Int.tdiv total_months 12
  let years_change := if total_months < 0 then years_change - 1 else years_change
  let d := add_years { d with month := Int.tmod (Int.tmod total_months 12 + 12) 12 + 1 }
    years_change
  let dim := days_in_month d.month d.year
  if dim < d.day then { d with day := dim } else d

/-- Embedding of `convert`: shift the wall clock by the offset
difference via `add_hours`, then record the new offset. -/
def convert (d : Arcdate) (new_gmt_offset : Int) : Arcdate :=
  let diff := new_gmt_offset - d.gmt_offset
  let d := add_hours d diff
  { d with gmt_offset := new_gmt_offset }

/-- Embedding of `free_date`, with the pointer modelled as
`Option Arcdate` (`none` = NULL) and the return value recording
whether `free` is invoked: the source only calls `free(date)` inside
`if (date)`. -/
def free_date (date : Option Arcdate) : Bool :=
  match date with
  | some _ => true
  | none => false

/-- Range invariants of the data model (spec section 3): month, day,
hour, minute and weekday are in range, with the day bounded by the
length of the current month. -/
def Valid (d : Arcdate) : Prop :=
  1 ≤ d.month ∧ d.month ≤ 12 ∧
  1 ≤ d.day ∧ d.day ≤ days_in_month d.month d.year ∧
  0 ≤ d.hour ∧ d.hour ≤ 23 ∧
  0 ≤ d.minute ∧ d.minute ≤ 59 ∧
  0 ≤ d.weekday ∧ d.weekday ≤ 6

instance : DecidablePred Valid := fun d => by
  unfold Valid
  infer_instance

/-- Absolute month index of a timestamp (months since year 0),
used to state how the library actually tracks the weekday: one step
per month rollover. -/
def monthIdx (d : Arcdate) : Int := 12 * d.year + d.month

/-! ### Formatter (to_date_string) -/

/-- Decimal digit pair of the zero-padded two-digit conversion `%02d`
(the library only formats values in `0..99` here, per the range
invariants of the data model). -/
def fmt2 (n : Int) : String :=
  String.mk [Nat.digitChar (n.toNat / 10), Nat.digitChar (n.toNat % 10)]

/-- Zero-padded four-digit conversion `%04d` (values in `0..9999`). -/
def fmt4 (n : Int) : String :=
  String.mk [Nat.digitChar (n.toNat / 1000), Nat.digitChar (n.toNat / 100 % 10),
    Nat.digitChar (n.toNat / 10 % 10), Nat.digitChar (n.toNat % 10)]

/-- The `%+d` conversion: decimal with an explicit sign. -/
def fmtSigned (n : Int) : String :=
  if n < 0 then toString n else "+" ++ toString n

/-- Embedding of `to_date_string` (the `snprintf` format string is
`"%s, %02d %s %04d %02d:%02d:%02d GMT%+d"`); the name-table reads
`weekday_names[weekday]` / `month_names[month - 1]` are undefined
behaviour out of range in C and are totalized with the empty
string. -/
def to_date_string (date : Arcdate) : String :=
  weekday_names.getD date.weekday.toNat "" ++ ", " ++ fmt2 date.day ++ " " ++
  month_names.getD (date.month - 1).toNat "" ++ " " ++ fmt4 date.year ++ " " ++
  fmt2 date.hour ++ ":" ++ fmt2 date.minute ++ ":" ++ fmt2 date.second ++ " GMT" ++
  fmtSigned date.gmt_offset

/-! ### Parser (sscanf model and generate_date) -/

/-- Whitespace in the sense of `isspace` in the C locale. -/
def isWS (c : Char) : Bool :=
  c == ' ' || c == '\t' || c == '\n' || c == '\x0b' || c == '\x0c' || c == '\r'

/-- Skip leading whitespace. -/
def skipWS : List Char → List Char
  | [] => []
  | c :: cs => if isWS c then skipWS cs else c :: cs

/-- Take up to `n` leading non-whitespace characters. -/
def takeNonWS : Nat → List Char → List Char × List Char
  | 0, cs => ([], cs)
  | _ + 1, [] => ([], [])
  | n + 1, c :: cs =>
    if isWS c then ([], c :: cs)
    else
      let p := takeNonWS n cs
      (c :: p.1, p.2)

/-- The `%3s` conversion of `sscanf`: skip whitespace, then read up to
`n` non-whitespace characters, failing when none is available. -/
def scanStr (n : Nat) (cs : List Char) : Option (String × List Char) :=
  let p := takeNonWS n (skipWS cs)
  if p.1.isEmpty then none else some (String.mk p.1, p.2)

/-- A literal (non-whitespace) character of the `sscanf` format must
match the next input character exactly. -/
def scanLit (c : Char) (cs : List Char) : Option (List Char) :=
  match cs with
  | c0 :: rest => if c0 == c then some rest else none
  | [] => none

/-- Numeric value of a decimal digit character. -/
def digitVal (c : Char) : Nat := c.toNat - 48

/-- Accumulate consecutive decimal digits. -/
def scanNatAux (acc : Nat) : List Char → Nat × List Char
  | [] => (acc, [])
  | c :: cs => if c.isDigit then scanNatAux (10 * acc + digitVal c) cs else (acc, c :: cs)

/-- Read one or more decimal digits. -/
def scanDigits (cs : List Char) : Option (Nat × List Char) :=
  match cs with
  | c :: rest => if c.isDigit then some (scanNatAux (digitVal c) rest) else none
  | [] => none

/-- The `%d` conversion of `sscanf`: skip whitespace, then an optional
sign followed by at least one digit. -/
def scanInt (cs : List Char) : Option (Int × List Char) :=
  match skipWS cs with
  | [] => none
  | c :: rest =>
    if c == '-' then (scanDigits rest).map (fun p => (-(p.1 : Int), p.2))
    else if c == '+' then (scanDigits rest).map (fun p => ((p.1 : Int), p.2))
    else (scanDigits (c :: rest)).map (fun p => ((p.1 : Int), p.2))

/-- Field extraction of `generate_date`, i.e. the embedding of
`sscanf(httpDate, "%3s, %d %3s %d %d:%d:%d", ...)`: weekday name, day,
month name, year, hour, minute, second.  A `none` result corresponds
to a conversion failure, after which the C code reads uninitialized
variables (undefined behaviour), so no defined value is modelled. -/
def parseHTTPFields (s : String) :
    Option (String × Int × String × Int × Int × Int × Int) := do
  let (wd, cs) ← scanStr 3 s.data
  let cs ← scanLit ',' cs
  let (day, cs) ← scanInt cs
  let (mon, cs) ← scanStr 3 cs
  let (year, cs) ← scanInt cs
  let (hour, cs) ← scanInt cs
  let cs ← scanLit ':' cs
  let (minute, cs) ← scanInt cs
  let cs ← scanLit ':' cs
  let (second, _cs) ← scanInt cs
  pure (wd, day, mon, year, hour, minute, second)

/-- Embedding of `generate_date` for a non-NULL input string: extract
the seven fields, build the record (recording the caller's offset),
then immediately shift the wall clock by the offset through
`add_hours`.  The NULL branch (sampling the system clock) is an
external time source and is not modelled. -/
def generate_date (httpDate : String) (gmt_offset : Int) : Option Arcdate :=
  match parseHTTPFields httpDate with
  | none => none
  | some (wd, day, mon, year, hour, minute, second) =>
    some (add_hours
      { year := year, month := parse_month mon, day := day, hour := hour,
        minute := minute, second := second, weekday := parse_weekday wd,
        gmt_offset := gmt_offset } gmt_offset)

/-! ### Specification-side definitions -/

/-- Sakamoto month offsets for the reference Gregorian weekday
computation. -/
def sakamoto_t : List Int := [0, 3, 2, 5, 0, 3, 5, 1, 4, 6, 2, 4]

/-- Reference Gregorian weekday (0 = Sunday) of a calendar date,
following the spec's notion of the Gregorian weekday progression. -/
def gregorianWeekday (y m day : Int) : Int :=
  let yy := if m < 3 then y - 1 else y
  (yy + Int.fdiv yy 4 - Int.fdiv yy 100 + Int.fdiv yy 400 +
    sakamoto_t.getD (m - 1).toNat 0 + day) % 7

/-- The well-formed HTTP-Date layout of the spec (section 4.2):
`"<Wkd>, <DD> <Mon> <YYYY> <HH>:<MM>:<SS> GMT"` with zero-padded
numeric fields. -/
def httpDateString (wd : String) (day : Int) (mon : String)
    (year hour minute second : Int) : String :=
  wd ++ ", " ++ fmt2 day ++ " " ++ mon ++ " " ++ fmt4 year ++ " " ++
  fmt2 hour ++ ":" ++ fmt2 minute ++ ":" ++ fmt2 second ++ " GMT"

/-- Well-formedness of an HTTP-Date string (spec sections 3 and 4.2):
the fixed layout with known weekday and month names and in-range
numeric fields. -/
def WellFormedHTTP (s : String) : Prop :=
  ∃ (wd : String) (day : Int) (mon : String) (year hour minute second : Int),
    wd ∈ weekday_names ∧ mon ∈ month_names ∧
    0 ≤ year ∧ year ≤ 9999 ∧
    1 ≤ day ∧ day ≤ days_in_month (parse_month mon) year ∧
    0 ≤ hour ∧ hour ≤ 23 ∧ 0 ≤ minute ∧ minute ≤ 59 ∧
    0 ≤ second ∧ second ≤ 59 ∧
    s = httpDateString wd day mon year hour minute second

/-- Concrete timestamp: Wed, 21 Oct 2015 00:00:00 GMT+0. -/
def oct21 : Arcdate := ⟨2015, 10, 21, 0, 0, 0, 3, 0⟩

/-- Concrete timestamp: Wed, 21 Oct 2015 00:28:00 GMT+0. -/
def oct21m28 : Arcdate := ⟨2015, 10, 21, 0, 28, 0, 3, 0⟩

/-- Concrete timestamp: Wed, 21 Oct 2015 12:28:00 GMT+5. -/
def wed1228 : Arcdate := ⟨2015, 10, 21, 12, 28, 0, 3, 5⟩

/-- Concrete timestamp: Wed, 21 Jan 2015 00:00:00 GMT+0. -/
def jan21 : Arcdate := ⟨2015, 1, 21, 0, 0, 0, 3, 0⟩

/-- Concrete timestamp: Sat, 31 Jan 2015 00:00:00 GMT+0. -/
def jan31 : Arcdate := ⟨2015, 1, 31, 0, 0, 0, 6, 0⟩

/-! ### Arithmetic helper lemmas about C-style division -/

/-- Positivity of the (totalized) month-length table at any index. -/
theorem month_days_getD_pos (n : Nat) : 0 < month_days.getD n 31 := by
  rcases lt_or_ge n 12 with h | h
  · interval_cases n <;> decide
  · rw [List.getD_eq_default]
    · decide
    · simp only [month_days, List.length_cons, List.length_nil]
      omega

/-- The month length is always positive (this is what makes both
normalization loops of `add_days` terminate). -/
theorem days_in_month_pos (month year : Int) : 0 < days_in_month month year := by
  unfold days_in_month
  split
  · split <;> norm_num
  · exact month_days_getD_pos _


/-- Truncating remainder is bounded below by `-b` for positive `b`. -/
theorem tmod_gt_neg (a : Int) {b : Int} (hb : 0 < b) : -b < Int.tmod a b := by
  cases a with
  | ofNat m =>
    have h0 : (0 : Int) ≤ Int.tmod (Int.ofNat m) b :=
      Int.tmod_nonneg b (Int.ofNat_nonneg m)
    omega
  | negSucc m =>
    lift b to ℕ using hb.le with k
    have hk : 0 < k := by exact_mod_cast hb
    have heq : Int.tmod (Int.negSucc m) (k : Int) = -((m.succ % k : ℕ) : Int) := rfl
    have hlt : m.succ % k < k := Nat.mod_lt _ hk
    rw [heq]
    omega

/-- The double-modulo idiom `(x % n + n) % n` of the source computes
the mathematical (Euclidean) remainder. -/
theorem tmod_wrap (x n : Int) (hn : 0 < n) :
    Int.tmod (Int.tmod x n + n) n = x % n := by
  have h1 : 0 ≤ Int.tmod x n + n := by
    have := tmod_gt_neg x hn
    omega
  rw [Int.tmod_eq_emod h1 hn.le, Int.tmod_def]
  have h2 : x - n * x.tdiv n + n = x + (1 - x.tdiv n) * n := by ring
  rw [h2, Int.add_mul_emod_self]

/-- Range of the double-modulo result. -/
theorem tmod_wrap_nonneg (x n : Int) (hn : 0 < n) :
    0 ≤ Int.tmod (Int.tmod x n + n) n ∧ Int.tmod (Int.tmod x n + n) n < n := by
  rw [tmod_wrap x n hn]
  exact ⟨Int.emod_nonneg x (by omega), Int.emod_lt_of_pos x hn⟩

/-- February's length under the embedding. -/
theorem days_in_month_two (y : Int) :
    days_in_month 2 y = if is_leap_year y then 29 else 28 := rfl

/-- Month lengths of valid months are at least 28. -/
theorem days_in_month_ge_28 {month : Int} (year : Int)
    (h1 : 1 ≤ month) (h2 : month ≤ 12) : 28 ≤ days_in_month month year := by
  unfold days_in_month
  split
  · split <;> norm_num
  · have h3 : (month - 1).toNat ≤ 11 := by omega
    interval_cases h : (month - 1).toNat <;> norm_num [month_days]

/-- Month lengths of valid months are at most 31. -/
theorem days_in_month_le_31 {month : Int} (year : Int)
    (h1 : 1 ≤ month) (h2 : month ≤ 12) : days_in_month month year ≤ 31 := by
  unfold days_in_month
  split
  · split <;> norm_num
  · have h3 : (month - 1).toNat ≤ 11 := by omega
    interval_cases h : (month - 1).toNat <;> norm_num [month_days]

/-! ### Structural lemmas about the add_days loops -/

/-- The first loop never touches hour, minute, second or the offset. -/
theorem loop1_fixed (d : Arcdate) :
    (add_days_loop1 d).hour = d.hour ∧ (add_days_loop1 d).minute = d.minute ∧
    (add_days_loop1 d).second = d.second ∧ (add_days_loop1 d).gmt_offset = d.gmt_offset := by
  induction d using add_days_loop1.induct with
  | case1 d hg ih =>
    rw [add_days_loop1.eq_def, if_pos hg]
    exact ih
  | case2 d hg =>
    rw [add_days_loop1.eq_def, if_neg hg]
    exact ⟨rfl, rfl, rfl, rfl⟩

/-- The second loop never touches hour, minute, second or the offset. -/
theorem loop2_fixed (d : Arcdate) :
    (add_days_loop2 d).hour = d.hour ∧ (add_days_loop2 d).minute = d.minute ∧
    (add_days_loop2 d).second = d.second ∧ (add_days_loop2 d).gmt_offset = d.gmt_offset := by
  induction d using add_days_loop2.induct with
  | case1 d hg ih =>
    rw [add_days_loop2.eq_def, if_pos hg]
    exact ih
  | case2 d hg =>
    rw [add_days_loop2.eq_def, if_neg hg]
    exact ⟨rfl, rfl, rfl, rfl⟩

/-- On exit of the first loop the day no longer exceeds the month
length, and it never drops below `min 1` of the initial day; the month
stays in `1..12` if it started there. -/
theorem loop1_spec (d : Arcdate) :
    (add_days_loop1 d).day ≤
      days_in_month (add_days_loop1 d).month (add_days_loop1 d).year ∧
    min 1 d.day ≤ (add_days_loop1 d).day ∧
    (1 ≤ d.month → d.month ≤ 12 →
      1 ≤ (add_days_loop1 d).month ∧ (add_days_loop1 d).month ≤ 12) := by
  induction d using add_days_loop1.induct with
  | case1 d hg ih =>
    rw [add_days_loop1.eq_def, if_pos hg]
    obtain ⟨ih1, ih2, ih3⟩ := ih
    refine ⟨ih1, ?_, ?_⟩
    · have hpos := days_in_month_pos d.month d.year
      have hroll : (1 : Int) ≤ (roll_fwd d).day := by
        simp only [roll_fwd]
        omega
      have : min 1 (roll_fwd d).day = 1 := min_eq_left (by omega)
      calc min 1 d.day ≤ 1 := min_le_left _ _
        _ = min 1 (roll_fwd d).day := this.symm
        _ ≤ _ := ih2
    · intro h1 h2
      apply ih3 <;> simp only [roll_fwd] <;> split <;> omega
  | case2 d hg =>
    rw [add_days_loop1.eq_def, if_neg hg]
    exact ⟨by omega, min_le_right _ _, fun h1 h2 => ⟨h1, h2⟩⟩

/-- If the day entering the second loop does not exceed the month
length and the month is valid, the loop exits with all range
invariants restored. -/
theorem loop2_spec (d : Arcdate) :
    1 ≤ d.month → d.month ≤ 12 → d.day ≤ days_in_month d.month d.year →
    (1 ≤ (add_days_loop2 d).day ∧
     (add_days_loop2 d).day ≤
       days_in_month (add_days_loop2 d).month (add_days_loop2 d).year ∧
     1 ≤ (add_days_loop2 d).month ∧ (add_days_loop2 d).month ≤ 12) := by
  induction d using add_days_loop2.induct with
  | case1 d hg ih =>
    intro h1 h2 _h3
    rw [add_days_loop2.eq_def, if_pos hg]
    apply ih <;> simp only [roll_bwd] <;> split <;> omega
  | case2 d hg =>
    intro h1 h2 h3
    rw [add_days_loop2.eq_def, if_neg hg]
    exact ⟨by omega, h3, h1, h2⟩

/-- Stepping forward moves the absolute month index up by one (for
valid months). -/
theorem roll_fwd_monthIdx (d : Arcdate) (h1 : 1 ≤ d.month) (h2 : d.month ≤ 12) :
    monthIdx (roll_fwd d) = monthIdx d + 1 := by
  simp only [roll_fwd, monthIdx]
  split <;> omega

/-- Stepping backward moves the absolute month index down by one (for
valid months). -/
theorem roll_bwd_monthIdx (d : Arcdate) (h1 : 1 ≤ d.month) (h2 : d.month ≤ 12) :
    monthIdx (roll_bwd d) = monthIdx d - 1 := by
  simp only [roll_bwd, monthIdx]
  split <;> omega

/-- Weekday tracking through the first loop: the weekday moves by one
step per iteration, i.e. by the change in absolute month index. -/
theorem loop1_weekday (d : Arcdate) :
    1 ≤ d.month → d.month ≤ 12 → 0 ≤ d.weekday → d.weekday ≤ 6 →
    ((add_days_loop1 d).weekday =
       (d.weekday + (monthIdx (add_days_loop1 d) - monthIdx d)) % 7 ∧
     0 ≤ (add_days_loop1 d).weekday ∧ (add_days_loop1 d).weekday ≤ 6) := by
  induction d using add_days_loop1.induct with
  | case1 d hg ih =>
    intro h1 h2 h3 h4
    rw [add_days_loop1.eq_def, if_pos hg]
    have hw1 : (roll_fwd d).weekday = (d.weekday + 1) % 7 := by
      simp only [roll_fwd]
      exact Int.tmod_eq_emod (by omega) (by omega)
    have hw2 : 0 ≤ (roll_fwd d).weekday := by
      rw [hw1]; exact Int.emod_nonneg _ (by omega)
    have hw3 : (roll_fwd d).weekday ≤ 6 := by
      rw [hw1]
      have := Int.emod_lt_of_pos (d.weekday + 1) (b := 7) (by omega)
      omega
    have hm1 : 1 ≤ (roll_fwd d).month := by
      simp only [roll_fwd]; split <;> omega
    have hm2 : (roll_fwd d).month ≤ 12 := by
      simp only [roll_fwd]; split <;> omega
    obtain ⟨e1, e2, e3⟩ := ih hm1 hm2 hw2 hw3
    refine ⟨?_, e2, e3⟩
    rw [e1, hw1, roll_fwd_monthIdx d h1 h2, Int.emod_add_emod]
    ring_nf
  | case2 d hg =>
    intro h1 h2 h3 h4
    rw [add_days_loop1.eq_def, if_neg hg]
    refine ⟨?_, h3, h4⟩
    rw [sub_self, add_zero, Int.emod_eq_of_lt h3 (by omega)]

/-- Weekday tracking through the second loop. -/
theorem loop2_weekday (d : Arcdate) :
    1 ≤ d.month → d.month ≤ 12 → 0 ≤ d.weekday → d.weekday ≤ 6 →
    ((add_days_loop2 d).weekday =
       (d.weekday + (monthIdx (add_days_loop2 d) - monthIdx d)) % 7 ∧
     0 ≤ (add_days_loop2 d).weekday ∧ (add_days_loop2 d).weekday ≤ 6) := by
  induction d using add_days_loop2.induct with
  | case1 d hg ih =>
    intro h1 h2 h3 h4
    rw [add_days_loop2.eq_def, if_pos hg]
    have hw1 : (roll_bwd d).weekday = (d.weekday + 6) % 7 := by
      simp only [roll_bwd]
      exact Int.tmod_eq_emod (by omega) (by omega)
    have hw2 : 0 ≤ (roll_bwd d).weekday := by
      rw [hw1]; exact Int.emod_nonneg _ (by omega)
    have hw3 : (roll_bwd d).weekday ≤ 6 := by
      rw [hw1]
      have := Int.emod_lt_of_pos (d.weekday + 6) (b := 7) (by omega)
      omega
    have hm1 : 1 ≤ (roll_bwd d).month := by
      simp only [roll_bwd]; split <;> omega
    have hm2 : (roll_bwd d).month ≤ 12 := by
      simp only [roll_bwd]; split <;> omega
    obtain ⟨e1, e2, e3⟩ := ih hm1 hm2 hw2 hw3
    refine ⟨?_, e2, e3⟩
    rw [e1, hw1, roll_bwd_monthIdx d h1 h2, Int.emod_add_emod]
    have harg : d.weekday + 6 + (monthIdx (add_days_loop2 (roll_bwd d)) - (monthIdx d - 1)) =
        d.weekday + (monthIdx (add_days_loop2 (roll_bwd d)) - monthIdx d) + 7 * 1 := by ring
    rw [harg, Int.add_mul_emod_self_left]
  | case2 d hg =>
    intro h1 h2 h3 h4
    rw [add_days_loop2.eq_def, if_neg hg]
    refine ⟨?_, h3, h4⟩
    rw [sub_self, add_zero, Int.emod_eq_of_lt h3 (by omega)]

/-- When the shifted day already lies within the current month,
`add_days` only updates the day field (no rollover iteration runs). -/
theorem add_days_no_roll (d : Arcdate) (n : Int)
    (h1 : 1 ≤ d.day + n) (h2 : d.day + n ≤ days_in_month d.month d.year) :
    add_days d n = { d with day := d.day + n } := by
  unfold add_days
  rw [add_days_loop1.eq_def]
  simp only [show ¬ (days_in_month d.month d.year < d.day + n) by omega, if_neg,
    ite_false]
  rw [add_days_loop2.eq_def]
  have hday : ({ d with day := d.day + n } : Arcdate).day = d.day + n := rfl
  split
  · rename_i hlt
    rw [hday] at hlt
    omega
  · rfl

/-- Summary of `add_days` on a valid timestamp: all range invariants
are restored, the time-of-day fields are untouched, and the weekday
moves by exactly the change in absolute month index. -/
theorem add_days_spec (d : Arcdate) (n : Int) (h : Valid d) :
    Valid (add_days d n) ∧
    (add_days d n).hour = d.hour ∧ (add_days d n).minute = d.minute ∧
    (add_days d n).second = d.second ∧ (add_days d n).gmt_offset = d.gmt_offset ∧
    (add_days d n).weekday = (d.weekday + (monthIdx (add_days d n) - monthIdx d)) % 7 := by
  obtain ⟨hm1, hm2, hd1, hd2, hh1, hh2, hmin1, hmin2, hw1, hw2⟩ := h
  set d1 : Arcdate := { d with day := d.day + n } with hd1def
  have hm1' : 1 ≤ d1.month := hm1
  have hm2' : d1.month ≤ 12 := hm2
  obtain ⟨l1a, l1b, l1c⟩ := loop1_spec d1
  obtain ⟨l1m1, l1m2⟩ := l1c hm1' hm2'
  obtain ⟨l2a, l2b, l2m1, l2m2⟩ := loop2_spec (add_days_loop1 d1) l1m1 l1m2 l1a
  obtain ⟨f1h, f1m, f1s, f1o⟩ := loop1_fixed d1
  obtain ⟨f2h, f2m, f2s, f2o⟩ := loop2_fixed (add_days_loop1 d1)
  obtain ⟨w1a, w1b, w1c⟩ := loop1_weekday d1 hm1' hm2' hw1 hw2
  obtain ⟨w2a, w2b, w2c⟩ := loop2_weekday (add_days_loop1 d1) l1m1 l1m2 w1b w1c
  have hres : add_days d n = add_days_loop2 (add_days_loop1 d1) := rfl
  rw [hres]
  refine ⟨⟨l2m1, l2m2, l2a, l2b, ?_, ?_, ?_, ?_, w2b, w2c⟩, ?_, ?_, ?_, ?_, ?_⟩
  · rw [f2h, f1h]; exact hh1
  · rw [f2h, f1h]; exact hh2
  · rw [f2m, f1m]; exact hmin1
  · rw [f2m, f1m]; exact hmin2
  · rw [f2h, f1h]
  · rw [f2m, f1m]
  · rw [f2s, f1s]
  · rw [f2o, f1o]
  · rw [w2a, w1a, Int.emod_add_emod]
    have hidx : monthIdx d1 = monthIdx d := rfl
    rw [hidx]
    ring_nf

/-- Validity is insensitive to the offset field. -/
theorem valid_set_offset (d : Arcdate) (x : Int) :
    Valid { d with gmt_offset := x } ↔ Valid d := Iff.rfl

/-- Summary of `add_hours` on a valid timestamp. -/
theorem add_hours_spec (d : Arcdate) (n : Int) (h : Valid d) :
    Valid (add_hours d n) ∧
    (add_hours d n).minute = d.minute ∧ (add_hours d n).second = d.second ∧
    (add_hours d n).gmt_offset = d.gmt_offset ∧
    (add_hours d n).weekday =
      (d.weekday + (monthIdx (add_hours d n) - monthIdx d)) % 7 := by
  obtain ⟨hm1, hm2, hd1, hd2, hh1, hh2, hmin1, hmin2, hw1, hw2⟩ := h
  set dh : Arcdate := { d with hour := Int.tmod (Int.tmod (d.hour + n) 24 + 24) 24 }
    with hdh
  have hrange := tmod_wrap_nonneg (d.hour + n) 24 (by norm_num)
  have hvdh : Valid dh := by
    refine ⟨hm1, hm2, hd1, hd2, hrange.1, ?_, hmin1, hmin2, hw1, hw2⟩
    show Int.tmod (Int.tmod (d.hour + n) 24 + 24) 24 ≤ 23
    have := hrange.2
    omega
  have he : add_hours d n = add_days dh
      (if d.hour + n < 0 then Int.tdiv (d.hour + n) 24 - 1
       else Int.tdiv (d.hour + n) 24) := rfl
  obtain ⟨v, fh, fm, fs, fo, fw⟩ := add_days_spec dh
    (if d.hour + n < 0 then Int.tdiv (d.hour + n) 24 - 1 else Int.tdiv (d.hour + n) 24)
    hvdh
  rw [he]
  exact ⟨v, fm, fs, fo, fw⟩

/-- Summary of `add_minutes` on a valid timestamp. -/
theorem add_minutes_spec (d : Arcdate) (n : Int) (h : Valid d) :
    Valid (add_minutes d n) ∧
    (add_minutes d n).second = d.second ∧
    (add_minutes d n).gmt_offset = d.gmt_offset ∧
    (add_minutes d n).weekday =
      (d.weekday + (monthIdx (add_minutes d n) - monthIdx d)) % 7 := by
  obtain ⟨hm1, hm2, hd1, hd2, hh1, hh2, hmin1, hmin2, hw1, hw2⟩ := h
  set dm : Arcdate := { d with minute := Int.tmod (Int.tmod (d.minute + n) 60 + 60) 60 }
    with hdm
  have hrange := tmod_wrap_nonneg (d.minute + n) 60 (by norm_num)
  have hvdm : Valid dm := by
    refine ⟨hm1, hm2, hd1, hd2, hh1, hh2, hrange.1, ?_, hw1, hw2⟩
    show Int.tmod (Int.tmod (d.minute + n) 60 + 60) 60 ≤ 59
    have := hrange.2
    omega
  have he : add_minutes d n = add_hours dm
      (if d.minute + n < 0 then Int.tdiv (d.minute + n) 60 - 1
       else Int.tdiv (d.minute + n) 60) := rfl
  obtain ⟨v, fm, fs, fo, fw⟩ := add_hours_spec dm
    (if d.minute + n < 0 then Int.tdiv (d.minute + n) 60 - 1 else Int.tdiv (d.minute + n) 60)
    hvdm
  rw [he]
  exact ⟨v, fs, fo, fw⟩

/-- Summary of `convert` on a valid timestamp. -/
theorem convert_spec (d : Arcdate) (x : Int) (h : Valid d) :
    Valid (convert d x) ∧ (convert d x).gmt_offset = x ∧
    (convert d x).minute = (add_hours d (x - d.gmt_offset)).minute ∧
    (convert d x).weekday =
      (d.weekday + (monthIdx (convert d x) - monthIdx d)) % 7 := by
  have he : convert d x = { add_hours d (x - d.gmt_offset) with gmt_offset := x } := rfl
  obtain ⟨v, fm, fs, fo, fw⟩ := add_hours_spec d (x - d.gmt_offset) h
  rw [he]
  exact ⟨(valid_set_offset _ _).mpr v, rfl, rfl, fw⟩

/-- Month lengths do not depend on the year outside February. -/
theorem days_in_month_ne_two {month : Int} (y y' : Int) (h : month ≠ 2) :
    days_in_month month y = days_in_month month y' := by
  unfold days_in_month
  have hb : (month == 2) = false := by simp [h]
  rw [hb]
  simp only [Bool.false_eq_true, if_false]

/-- Field-by-field description of `add_years`. -/
theorem add_years_spec (d : Arcdate) (n : Int) :
    (add_years d n).year = d.year + n ∧ (add_years d n).month = d.month ∧
    (add_years d n).hour = d.hour ∧ (add_years d n).minute = d.minute ∧
    (add_years d n).second = d.second ∧ (add_years d n).weekday = d.weekday ∧
    (add_years d n).gmt_offset = d.gmt_offset ∧
    (add_years d n).day =
      (if d.month == 2 && d.day == 29 && !is_leap_year (d.year + n) then 28 else d.day) := by
  unfold add_years
  dsimp only
  split
  · exact ⟨rfl, rfl, rfl, rfl, rfl, rfl, rfl, rfl⟩
  · exact ⟨rfl, rfl, rfl, rfl, rfl, rfl, rfl, rfl⟩

/-- Range preservation for `add_years`. -/
theorem add_years_valid (d : Arcdate) (n : Int) (h : Valid d) : Valid (add_years d n) := by
  obtain ⟨hm1, hm2, hd1, hd2, hh1, hh2, hmin1, hmin2, hw1, hw2⟩ := h
  obtain ⟨ey, em, eh, emin, es, ew, eo, ed⟩ := add_years_spec d n
  refine ⟨?_, ?_, ?_, ?_, ?_, ?_, ?_, ?_, ?_, ?_⟩
  · rw [em]; exact hm1
  · rw [em]; exact hm2
  · rw [ed]
    split
    · norm_num
    · exact hd1
  · rw [ed, em, ey]
    split
    · rename_i hc
      simp only [Bool.and_eq_true, beq_iff_eq, Bool.not_eq_eq_eq_not, Bool.not_true] at hc
      obtain ⟨⟨hcm, _hcd⟩, hcl⟩ := hc
      rw [hcm, days_in_month_two, hcl]
      norm_num
    · rename_i hc
      by_cases hmx : d.month = 2
      · rw [hmx] at hc
        rw [hmx, days_in_month_two]
        have h29 : d.day ≤ 29 := by
          have hx := hd2
          rw [hmx, days_in_month_two] at hx
          split at hx <;> omega
        by_cases hday : d.day = 29
        · have hleap : is_leap_year (d.year + n) = true := by
            cases hlp : is_leap_year (d.year + n) with
            | true => rfl
            | false =>
              exfalso
              apply hc
              rw [hday]
              simp [hlp]
          rw [hleap]
          simp only [if_true]
          omega
        · split <;> omega
      · rw [days_in_month_ne_two (d.year + n) d.year hmx]
        exact hd2
  · rw [eh]; exact hh1
  · rw [eh]; exact hh2
  · rw [emin]; exact hmin1
  · rw [emin]; exact hmin2
  · rw [ew]; exact hw1
  · rw [ew]; exact hw2

/-- Field-by-field description of `add_months`: the month is wrapped
into `1..12` by the double-modulo, the year moves by the (corrected)
truncating quotient, and the day is clamped down to the new month's
length exactly when it exceeds it. -/
theorem add_months_spec (d : Arcdate) (n : Int) :
    (add_months d n).month = Int.tmod (Int.tmod (d.month + n - 1) 12 + 12) 12 + 1 ∧
    (add_months d n).year = d.year +
      (if d.month + n - 1 < 0 then Int.tdiv (d.month + n - 1) 12 - 1
       else Int.tdiv (d.month + n - 1) 12) ∧
    (add_months d n).day =
      min d.day (days_in_month (add_months d n).month (add_months d n).year) ∧
    (add_months d n).hour = d.hour ∧ (add_months d n).minute = d.minute ∧
    (add_months d n).second = d.second ∧ (add_months d n).weekday = d.weekday ∧
    (add_months d n).gmt_offset = d.gmt_offset := by
  unfold add_months
  dsimp only
  set M := Int.tmod (Int.tmod (d.month + n - 1) 12 + 12) 12 + 1 with hMdef
  set yc := (if d.month + n - 1 < 0 then Int.tdiv (d.month + n - 1) 12 - 1
             else Int.tdiv (d.month + n - 1) 12) with hycdef
  set a := add_years { d with month := M } yc with hadef
  obtain ⟨ey, em, eh, emin, es, ew, eo, ed⟩ := add_years_spec { d with month := M } yc
  rw [← hadef] at ey em eh emin es ew eo ed
  dsimp only at ey em eh emin es ew eo ed
  split
  · rename_i hcl
    refine ⟨em, ey, ?_, eh, emin, es, ew, eo⟩
    show days_in_month a.month a.year = min d.day (days_in_month a.month a.year)
    by_cases hcond : (M == 2 && d.day == 29 && !is_leap_year (d.year + yc)) = true
    · rw [if_pos hcond] at ed
      simp only [Bool.and_eq_true, beq_iff_eq, Bool.not_eq_true'] at hcond
      obtain ⟨⟨hM2, h29⟩, hnl⟩ := hcond
      rw [em, ey, hM2, days_in_month_two, hnl] at hcl
      rw [ed] at hcl
      norm_num at hcl
    · rw [if_neg hcond] at ed
      rw [ed] at hcl
      exact (min_eq_right (le_of_lt hcl)).symm
  · rename_i hcl
    refine ⟨em, ey, ?_, eh, emin, es, ew, eo⟩
    show a.day = min d.day (days_in_month a.month a.year)
    by_cases hcond : (M == 2 && d.day == 29 && !is_leap_year (d.year + yc)) = true
    · rw [if_pos hcond] at ed
      simp only [Bool.and_eq_true, beq_iff_eq, Bool.not_eq_true'] at hcond
      obtain ⟨⟨hM2, h29⟩, hnl⟩ := hcond
      rw [em, ey, hM2, days_in_month_two, hnl, ed, h29]
      norm_num
    · rw [if_neg hcond] at ed
      rw [ed] at hcl ⊢
      exact (min_eq_left (by omega)).symm

/-- Range preservation for `add_months`. -/
theorem add_months_valid (d : Arcdate) (n : Int) (h : Valid d) : Valid (add_months d n) := by
  obtain ⟨hm1, hm2, hd1, hd2, hh1, hh2, hmin1, hmin2, hw1, hw2⟩ := h
  obtain ⟨em, ey, edd, eh, emin, es, ew, eo⟩ := add_months_spec d n
  have hrange := tmod_wrap_nonneg (d.month + n - 1) 12 (by norm_num)
  have hdimpos := days_in_month_pos (add_months d n).month (add_months d n).year
  refine ⟨?_, ?_, ?_, ?_, ?_, ?_, ?_, ?_, ?_, ?_⟩
  · rw [em]; omega
  · rw [em]; omega
  · rw [edd]; omega
  · rw [edd]
    exact min_le_right _ _
  · rw [eh]; exact hh1
  · rw [eh]; exact hh2
  · rw [emin]; exact hmin1
  · rw [emin]; exact hmin2
  · rw [ew]; exact hw1
  · rw [ew]; exact hw2

/-! ### Zero-delta identities -/

/-- Adding zero days to a valid timestamp is the identity. -/
theorem add_days_zero (d : Arcdate) (h : Valid d) : add_days d 0 = d := by
  obtain ⟨hm1, hm2, hd1, hd2, _⟩ := h
  rw [add_days_no_roll d 0 (by omega) (by omega)]
  simp

/-- Adding zero hours to a valid timestamp is the identity. -/
theorem add_hours_zero (d : Arcdate) (h : Valid d) : add_hours d 0 = d := by
  have h' := h
  obtain ⟨hm1, hm2, hd1, hd2, hh1, hh2, _⟩ := h'
  have he : add_hours d 0 = add_days
      { d with hour := Int.tmod (Int.tmod (d.hour + 0) 24 + 24) 24 }
      (if d.hour + 0 < 0 then Int.tdiv (d.hour + 0) 24 - 1 else Int.tdiv (d.hour + 0) 24) := rfl
  rw [he]
  have h1 : d.hour + 0 = d.hour := by ring
  rw [h1]
  have h2 : Int.tmod (Int.tmod d.hour 24 + 24) 24 = d.hour := by
    rw [tmod_wrap _ _ (by norm_num)]
    exact Int.emod_eq_of_lt hh1 (by omega)
  rw [h2]
  have h3 : (if d.hour < 0 then Int.tdiv d.hour 24 - 1 else Int.tdiv d.hour 24) = 0 := by
    rw [if_neg (by omega)]
    exact Int.tdiv_eq_zero_of_lt hh1 (by omega)
  rw [h3]
  have h4 : ({ d with hour := d.hour } : Arcdate) = d := rfl
  rw [h4]
  exact add_days_zero d h

/-- Adding zero minutes to a valid timestamp is the identity. -/
theorem add_minutes_zero (d : Arcdate) (h : Valid d) : add_minutes d 0 = d := by
  have h' := h
  obtain ⟨hm1, hm2, hd1, hd2, hh1, hh2, hmin1, hmin2, _⟩ := h'
  have he : add_minutes d 0 = add_hours
      { d with minute := Int.tmod (Int.tmod (d.minute + 0) 60 + 60) 60 }
      (if d.minute + 0 < 0 then Int.tdiv (d.minute + 0) 60 - 1
       else Int.tdiv (d.minute + 0) 60) := rfl
  rw [he]
  have h1 : d.minute + 0 = d.minute := by ring
  rw [h1]
  have h2 : Int.tmod (Int.tmod d.minute 60 + 60) 60 = d.minute := by
    rw [tmod_wrap _ _ (by norm_num)]
    exact Int.emod_eq_of_lt hmin1 (by omega)
  rw [h2]
  have h3 : (if d.minute < 0 then Int.tdiv d.minute 60 - 1 else Int.tdiv d.minute 60) = 0 := by
    rw [if_neg (by omega)]
    exact Int.tdiv_eq_zero_of_lt hmin1 (by omega)
  rw [h3]
  have h4 : ({ d with minute := d.minute } : Arcdate) = d := rfl
  rw [h4]
  exact add_hours_zero d h

/-- Adding zero years to a valid timestamp is the identity (the
February 29 clamp cannot fire because validity forces the year of an
existing February 29 to be leap). -/
theorem add_years_zero (d : Arcdate) (h : Valid d) : add_years d 0 = d := by
  have h' := h
  obtain ⟨hm1, hm2, hd1, hd2, _⟩ := h'
  unfold add_years
  dsimp only
  have hy : d.year + 0 = d.year := by ring
  rw [hy]
  have hcond : (d.month == 2 && d.day == 29 && !is_leap_year d.year) = false := by
    by_cases hm : d.month = 2
    · by_cases hdd : d.day = 29
      · have hlp : is_leap_year d.year = true := by
          have hx := hd2
          rw [hm, days_in_month_two] at hx
          cases hl : is_leap_year d.year with
          | true => rfl
          | false =>
            rw [hl] at hx
            simp only [Bool.false_eq_true, if_false] at hx
            omega
        simp [hlp]
      · simp [hdd]
    · simp [hm]
  rw [hcond]
  simp

/-- Adding zero months to a valid timestamp is the identity. -/
theorem add_months_zero (d : Arcdate) (h : Valid d) : add_months d 0 = d := by
  have h' := h
  obtain ⟨hm1, hm2, hd1, hd2, _⟩ := h'
  unfold add_months
  dsimp only
  have ht : d.month + 0 - 1 = d.month - 1 := by ring
  rw [ht]
  have h0 : Int.tmod (Int.tmod (d.month - 1) 12 + 12) 12 + 1 = d.month := by
    rw [tmod_wrap _ _ (by norm_num)]
    rw [Int.emod_eq_of_lt (by omega) (by omega)]
    ring
  rw [h0]
  have h1 : (if d.month - 1 < 0 then Int.tdiv (d.month - 1) 12 - 1
             else Int.tdiv (d.month - 1) 12) = 0 := by
    rw [if_neg (by omega)]
    exact Int.tdiv_eq_zero_of_lt (by omega) (by omega)
  rw [h1]
  have h2 : ({ d with month := d.month } : Arcdate) = d := rfl
  rw [h2]
  rw [add_years_zero d h]
  rw [if_neg (by omega)]

/-! ### Evaluation helpers for concrete inputs -/

/-- Closed form of `add_hours` when the resulting day stays inside the
current month. -/
theorem add_hours_eval (d : Arcdate) (n : Int)
    (h1 : 1 ≤ d.day + (if d.hour + n < 0 then Int.tdiv (d.hour + n) 24 - 1
                       else Int.tdiv (d.hour + n) 24))
    (h2 : d.day + (if d.hour + n < 0 then Int.tdiv (d.hour + n) 24 - 1
                   else Int.tdiv (d.hour + n) 24) ≤ days_in_month d.month d.year) :
    add_hours d n = { d with
      hour := Int.tmod (Int.tmod (d.hour + n) 24 + 24) 24,
      day := d.day + (if d.hour + n < 0 then Int.tdiv (d.hour + n) 24 - 1
                      else Int.tdiv (d.hour + n) 24) } := by
  have he : add_hours d n = add_days
      { d with hour := Int.tmod (Int.tmod (d.hour + n) 24 + 24) 24 }
      (if d.hour + n < 0 then Int.tdiv (d.hour + n) 24 - 1
       else Int.tdiv (d.hour + n) 24) := rfl
  rw [he, add_days_no_roll
    { d with hour := Int.tmod (Int.tmod (d.hour + n) 24 + 24) 24 }
    (if d.hour + n < 0 then Int.tdiv (d.hour + n) 24 - 1
     else Int.tdiv (d.hour + n) 24) h1 h2]

/-- Unfolding of `convert` as a record update. -/
theorem convert_eval (d : Arcdate) (x : Int) :
    convert d x = { add_hours d (x - d.gmt_offset) with gmt_offset := x } := rfl

/-! ### Iteration-count bounds for the add_days loops -/

/-- The first loop runs at most `day` iterations (each iteration
strictly decreases the day, which stays positive while looping). -/
theorem loop1_count_le (d : Arcdate) :
    1 ≤ d.month → d.month ≤ 12 → loop1_count d ≤ d.day.toNat := by
  induction d using loop1_count.induct with
  | case1 d hg ih =>
    intro h1 h2
    rw [loop1_count.eq_def, if_pos hg]
    have hm1 : 1 ≤ (roll_fwd d).month := by
      simp only [roll_fwd]; split <;> omega
    have hm2 : (roll_fwd d).month ≤ 12 := by
      simp only [roll_fwd]; split <;> omega
    have hrec := ih hm1 hm2
    have hrd : (roll_fwd d).day = d.day - days_in_month d.month d.year := rfl
    have hpos := days_in_month_pos d.month d.year
    omega
  | case2 d hg =>
    intro _ _
    rw [loop1_count.eq_def, if_neg hg]
    omega

/-- The second loop runs at most `1 - day` iterations. -/
theorem loop2_count_le (d : Arcdate) :
    1 ≤ d.month → d.month ≤ 12 → loop2_count d ≤ (1 - d.day).toNat := by
  induction d using loop2_count.induct with
  | case1 d hg ih =>
    intro h1 h2
    rw [loop2_count.eq_def, if_pos hg]
    have hm1 : 1 ≤ (roll_bwd d).month := by
      simp only [roll_bwd]; split <;> omega
    have hm2 : (roll_bwd d).month ≤ 12 := by
      simp only [roll_bwd]; split <;> omega
    have hrec := ih hm1 hm2
    have hrd : (roll_bwd d).day = d.day +
        days_in_month (if d.month - 1 < 1 then 12 else d.month - 1)
          (if d.month - 1 < 1 then d.year - 1 else d.year) := rfl
    have hpos := days_in_month_pos (if d.month - 1 < 1 then 12 else d.month - 1)
      (if d.month - 1 < 1 then d.year - 1 else d.year)
    omega
  | case2 d hg =>
    intro _ _
    rw [loop2_count.eq_def, if_neg hg]
    omega

/-! ### Claim theorems -/

/-- Claim C1 (code_bug evaluation): the carry at each unit boundary is
NOT floor division.  The source decrements the truncating quotient
whenever the dividend is negative, so for a negative dividend that is
an exact multiple of the base the carry is one less than the floor
quotient: from hour 0, `add_hours (-24)` moves the day to 19 while
floor division prescribes 20; from minute 0, `add_minutes (-60)` lands
on hour 22 while floor semantics prescribe 23; from January,
`add_months (-12)` lands on year 2013 while floor semantics prescribe
2014. -/
theorem claim_C1_floor_carry :
    ((add_hours oct21 (-24)).day = 19 ∧
      oct21.day + Int.fdiv (oct21.hour + (-24)) 24 = 20) ∧
    ((add_minutes oct21 (-60)).hour = 22 ∧
      (oct21.hour + Int.fdiv (oct21.minute + (-60)) 60) % 24 = 23) ∧
    ((add_months jan21 (-12)).year = 2013 ∧
      jan21.year + Int.fdiv (jan21.month + (-12) - 1) 12 = 2014) := by
  refine ⟨⟨?_, by decide⟩, ⟨?_, by decide⟩, ⟨by decide, by decide⟩⟩
  · rw [add_hours_eval oct21 (-24) (by decide) (by decide)]
    decide
  · have e : add_minutes oct21 (-60) = add_hours
        { oct21 with minute := Int.tmod (Int.tmod (oct21.minute + (-60)) 60 + 60) 60 }
        (if oct21.minute + (-60) < 0 then Int.tdiv (oct21.minute + (-60)) 60 - 1
         else Int.tdiv (oct21.minute + (-60)) 60) := rfl
    rw [e, add_hours_eval _ _ (by decide) (by decide)]
    decide

/-- Claim C3 (counterexample): weekday does NOT advance one step per
calendar day crossed.  Starting from Wed, 21 Oct 2015 (weekday 3,
agreeing with the Gregorian reckoning), `add_days 2` reaches 23 Oct
2015 with the weekday field still 3, while the Gregorian weekday of 23
Oct 2015 is 5 (Friday): no month boundary was crossed, so the library
left the weekday untouched. -/
theorem claim_C3_counterexample :
    gregorianWeekday oct21m28.year oct21m28.month oct21m28.day = oct21m28.weekday ∧
    add_days oct21m28 2 = ⟨2015, 10, 23, 0, 28, 0, 3, 0⟩ ∧
    gregorianWeekday 2015 10 23 = 5 ∧
    ((⟨2015, 10, 23, 0, 28, 0, 3, 0⟩ : Arcdate)).weekday ≠ 5 := by
  refine ⟨by decide, ?_, by decide, by decide⟩
  rw [add_days_no_roll oct21m28 2 (by decide) (by decide)]
  decide

/-- Claim C3 (amended): after any single mutation of a valid
timestamp, the weekday field has moved by exactly one step per month
rollover, i.e. it is congruent mod 7 to the old weekday plus the
change in absolute month index; `add_months` and `add_years` leave the
weekday untouched. -/
theorem claim_C3_weekday_per_rollover (d : Arcdate) (n x : Int) (h : Valid d) :
    (add_days d n).weekday = (d.weekday + (monthIdx (add_days d n) - monthIdx d)) % 7 ∧
    (add_hours d n).weekday = (d.weekday + (monthIdx (add_hours d n) - monthIdx d)) % 7 ∧
    (add_minutes d n).weekday =
      (d.weekday + (monthIdx (add_minutes d n) - monthIdx d)) % 7 ∧
    (convert d x).weekday = (d.weekday + (monthIdx (convert d x) - monthIdx d)) % 7 ∧
    (add_months d n).weekday = d.weekday ∧
    (add_years d n).weekday = d.weekday :=
  ⟨(add_days_spec d n h).2.2.2.2.2, (add_hours_spec d n h).2.2.2.2,
   (add_minutes_spec d n h).2.2.2, (convert_spec d x h).2.2.2,
   (add_months_spec d n).2.2.2.2.2.2.1, (add_years_spec d n).2.2.2.2.2.1⟩

/-- Claim C3 (amended) witness at Wed, 21 Oct 2015 12:28:00 GMT+5 with
delta 11 and offset 7. -/
theorem claim_C3_weekday_witness :
    Valid wed1228 ∧
    ((add_days wed1228 11).weekday =
       (wed1228.weekday + (monthIdx (add_days wed1228 11) - monthIdx wed1228)) % 7 ∧
     (add_hours wed1228 11).weekday =
       (wed1228.weekday + (monthIdx (add_hours wed1228 11) - monthIdx wed1228)) % 7 ∧
     (add_minutes wed1228 11).weekday =
       (wed1228.weekday + (monthIdx (add_minutes wed1228 11) - monthIdx wed1228)) % 7 ∧
     (convert wed1228 7).weekday =
       (wed1228.weekday + (monthIdx (convert wed1228 7) - monthIdx wed1228)) % 7 ∧
     (add_months wed1228 11).weekday = wed1228.weekday ∧
     (add_years wed1228 11).weekday = wed1228.weekday) :=
  ⟨by decide, claim_C3_weekday_per_rollover wed1228 11 7 (by decide)⟩

/-- Claim C4 (code_bug evaluation): converting Wed, 21 Oct 2015
00:28:00 GMT+0 to offset -24 and then to offset 0 lands on day 20,
while a single conversion to offset 0 stays on day 21 — the two-step
conversion is NOT equivalent to the direct one (both end at offset 0).
The root cause is the same carry slip as in C1. -/
theorem claim_C4_convert_divergence :
    (convert (convert oct21m28 (-24)) 0).day = 20 ∧
    (convert oct21m28 0).day = 21 ∧
    (convert (convert oct21m28 (-24)) 0).gmt_offset = 0 ∧
    (convert oct21m28 0).gmt_offset = 0 := by
  have h1 : convert oct21m28 (-24) = ⟨2015, 10, 19, 0, 28, 0, 3, -24⟩ := by
    rw [convert_eval, add_hours_eval _ _ (by decide) (by decide)]
    decide
  have h2 : convert (⟨2015, 10, 19, 0, 28, 0, 3, -24⟩ : Arcdate) 0 =
      ⟨2015, 10, 20, 0, 28, 0, 3, 0⟩ := by
    rw [convert_eval, add_hours_eval _ _ (by decide) (by decide)]
    decide
  have h3 : convert oct21m28 0 = oct21m28 := by
    rw [convert_eval, add_hours_eval _ _ (by decide) (by decide)]
    decide
  rw [h1, h2, h3]
  exact ⟨rfl, rfl, rfl, rfl⟩

/-- Claim C5: every arithmetic operation (and convert) maps a
timestamp satisfying the range invariants to a timestamp satisfying
them again, for every signed delta and offset. -/
theorem claim_C5_range_invariants (d : Arcdate) (n x : Int) (h : Valid d) :
    Valid (add_minutes d n) ∧ Valid (add_hours d n) ∧ Valid (add_days d n) ∧
    Valid (add_months d n) ∧ Valid (add_years d n) ∧ Valid (convert d x) :=
  ⟨(add_minutes_spec d n h).1, (add_hours_spec d n h).1, (add_days_spec d n h).1,
   add_months_valid d n h, add_years_valid d n h, (convert_spec d x h).1⟩

/-- Claim C5 witness at Wed, 21 Oct 2015 12:28:00 GMT+5 with delta
-90 and offset 7. -/
theorem claim_C5_witness :
    Valid wed1228 ∧
    (Valid (add_minutes wed1228 (-90)) ∧ Valid (add_hours wed1228 (-90)) ∧
     Valid (add_days wed1228 (-90)) ∧ Valid (add_months wed1228 (-90)) ∧
     Valid (add_years wed1228 (-90)) ∧ Valid (convert wed1228 7)) :=
  ⟨by decide, claim_C5_range_invariants wed1228 (-90) 7 (by decide)⟩

/-- Claim C6: a zero delta is the identity for every arithmetic
operation on a valid timestamp. -/
theorem claim_C6_zero_delta (d : Arcdate) (h : Valid d) :
    add_days d 0 = d ∧ add_hours d 0 = d ∧ add_minutes d 0 = d ∧
    add_months d 0 = d ∧ add_years d 0 = d :=
  ⟨add_days_zero d h, add_hours_zero d h, add_minutes_zero d h,
   add_months_zero d h, add_years_zero d h⟩

/-- Claim C6 witness at Wed, 21 Oct 2015 12:28:00 GMT+5. -/
theorem claim_C6_witness :
    Valid wed1228 ∧
    (add_days wed1228 0 = wed1228 ∧ add_hours wed1228 0 = wed1228 ∧
     add_minutes wed1228 0 = wed1228 ∧ add_months wed1228 0 = wed1228 ∧
     add_years wed1228 0 = wed1228) :=
  ⟨by decide, claim_C6_zero_delta wed1228 (by decide)⟩

/-- Claim C7: after `add_months` the day equals the original day
clamped down to the length of the new month (so it never exceeds it
and stays at least 1), and in particular January 31 plus one month is
February 28 in a non-leap year and February 29 in a leap year. -/
theorem claim_C7_month_clamp (d : Arcdate) (n : Int) (h : Valid d) :
    (1 ≤ (add_months d n).day ∧
     (add_months d n).day ≤
       days_in_month (add_months d n).month (add_months d n).year ∧
     (add_months d n).day =
       min d.day (days_in_month (add_months d n).month (add_months d n).year)) ∧
    (d.month = 1 → d.day = 31 → n = 1 →
      (add_months d n).month = 2 ∧ (add_months d n).year = d.year ∧
      (add_months d n).day = (if is_leap_year d.year then 29 else 28)) := by
  constructor
  · obtain ⟨em, ey, edd, _⟩ := add_months_spec d n
    obtain ⟨_, _, hq1, hq2, _⟩ := add_months_valid d n h
    exact ⟨hq1, hq2, edd⟩
  · intro hm hd hn
    subst hn
    obtain ⟨em, ey, edd, _⟩ := add_months_spec d 1
    rw [hm] at em ey
    have e1 : Int.tmod (Int.tmod ((1 : Int) + 1 - 1) 12 + 12) 12 + 1 = 2 := by decide
    have e2 : (if (1 : Int) + 1 - 1 < 0 then Int.tdiv ((1 : Int) + 1 - 1) 12 - 1
               else Int.tdiv ((1 : Int) + 1 - 1) 12) = 0 := by decide
    rw [e1] at em
    rw [e2, add_zero] at ey
    refine ⟨em, ey, ?_⟩
    rw [edd, em, ey, hd, days_in_month_two]
    split <;> decide

/-- Claim C7 witness at Sat, 31 Jan 2015 00:00:00 GMT+0 with delta 1. -/
theorem claim_C7_witness :
    Valid jan31 ∧
    ((1 ≤ (add_months jan31 1).day ∧
      (add_months jan31 1).day ≤
        days_in_month (add_months jan31 1).month (add_months jan31 1).year ∧
      (add_months jan31 1).day =
        min jan31.day (days_in_month (add_months jan31 1).month (add_months jan31 1).year)) ∧
     (jan31.month = 1 → jan31.day = 31 → (1 : Int) = 1 →
       (add_months jan31 1).month = 2 ∧ (add_months jan31 1).year = jan31.year ∧
       (add_months jan31 1).day = (if is_leap_year jan31.year then 29 else 28))) :=
  ⟨by decide, claim_C7_month_clamp jan31 1 (by decide)⟩

/-- Claim C9: `add_days` on a valid timestamp is the sequential
composition of its two normalization loops, and the iteration counts
of those loops are bounded by functions of the magnitude of the
supplied delta (31 + abs for the overflow loop, abs for the borrow
loop). -/
theorem claim_C9_termination (d : Arcdate) (n : Int) (h : Valid d) :
    add_days d n = add_days_loop2 (add_days_loop1 { d with day := d.day + n }) ∧
    loop1_count { d with day := d.day + n } ≤ 31 + n.natAbs ∧
    loop2_count (add_days_loop1 { d with day := d.day + n }) ≤ n.natAbs := by
  obtain ⟨hm1, hm2, hd1, hd2, _⟩ := h
  have hle31 := days_in_month_le_31 d.year hm1 hm2
  refine ⟨rfl, ?_, ?_⟩
  · have hb := loop1_count_le { d with day := d.day + n } hm1 hm2
    have hday : ({ d with day := d.day + n } : Arcdate).day = d.day + n := rfl
    rw [hday] at hb
    omega
  · obtain ⟨l1a, l1b, l1c⟩ := loop1_spec { d with day := d.day + n }
    obtain ⟨lm1, lm2⟩ := l1c hm1 hm2
    have hb := loop2_count_le (add_days_loop1 { d with day := d.day + n }) lm1 lm2
    have hday : ({ d with day := d.day + n } : Arcdate).day = d.day + n := rfl
    rw [hday] at l1b
    omega

/-- Claim C9 witness at Wed, 21 Oct 2015 12:28:00 GMT+5 with delta
300. -/
theorem claim_C9_witness :
    Valid wed1228 ∧
    (add_days wed1228 300 =
       add_days_loop2 (add_days_loop1 { wed1228 with day := wed1228.day + 300 }) ∧
     loop1_count { wed1228 with day := wed1228.day + 300 } ≤ 31 + (300 : Int).natAbs ∧
     loop2_count (add_days_loop1 { wed1228 with day := wed1228.day + 300 }) ≤
       (300 : Int).natAbs) :=
  ⟨by decide, claim_C9_termination wed1228 300 (by decide)⟩

/-- Claim C10: releasing a NULL timestamp performs no deallocation:
the NULL check of `free_date` means `free` is not invoked. -/
theorem claim_C10_free_null : free_date none = false := rfl

/-! ### Parser lemmas -/

/-- The linear name scan fails on strings absent from the table. -/
theorem name_index_none (str : String) (l : List String) (i : Nat) (h : str ∉ l) :
    name_index str l i = none := by
  induction l generalizing i with
  | nil => rfl
  | cons nm rest ih =>
    simp only [List.mem_cons, not_or] at h
    have hne : (nm == str) = false := by
      simp only [beq_eq_false_iff_ne]
      exact Ne.symm h.1
    simp only [name_index, hne, Bool.false_eq_true, if_false]
    exact ih _ h.2

/-- A successful linear name scan returns an index below
start + length. -/
theorem name_index_lt (str : String) (l : List String) (i j : Nat)
    (h : name_index str l i = some j) : j < i + l.length := by
  induction l generalizing i with
  | nil => simp [name_index] at h
  | cons nm rest ih =>
    simp only [name_index] at h
    split at h
    · cases h
      simp only [List.length_cons]
      omega
    · have := ih (i + 1) h
      simp only [List.length_cons]
      omega

/-- The parsed month number is always in `1..12`. -/
theorem parse_month_range (s : String) : 1 ≤ parse_month s ∧ parse_month s ≤ 12 := by
  unfold parse_month
  cases hni : name_index s month_names 0 with
  | none => norm_num
  | some j =>
    have := name_index_lt s month_names 0 j hni
    simp only [month_names, List.length_cons, List.length_nil] at this
    dsimp only
    constructor <;> [omega; omega]

/-- The parsed weekday index is always in `0..6`. -/
theorem parse_weekday_range (s : String) :
    0 ≤ parse_weekday s ∧ parse_weekday s ≤ 6 := by
  unfold parse_weekday
  cases hni : name_index s weekday_names 0 with
  | none => norm_num
  | some j =>
    have := name_index_lt s weekday_names 0 j hni
    simp only [weekday_names, List.length_cons, List.length_nil] at this
    dsimp only
    constructor <;> [omega; omega]

/-- Decimal digit characters are recognized by `Char.isDigit`. -/
theorem digitChar_isDigit {a : Nat} (h : a < 10) : (Nat.digitChar a).isDigit = true := by
  interval_cases a <;> decide

/-- Scanning a digit character recovers its value. -/
theorem digitVal_digitChar {a : Nat} (h : a < 10) : digitVal (Nat.digitChar a) = a := by
  interval_cases a <;> decide

/-- Digit characters are not whitespace. -/
theorem digitChar_not_ws {a : Nat} (h : a < 10) : isWS (Nat.digitChar a) = false := by
  interval_cases a <;> decide

/-- Digit characters are not the minus sign. -/
theorem digitChar_ne_minus {a : Nat} (h : a < 10) : (Nat.digitChar a == '-') = false := by
  interval_cases a <;> decide

/-- Digit characters are not the plus sign. -/
theorem digitChar_ne_plus {a : Nat} (h : a < 10) : (Nat.digitChar a == '+') = false := by
  interval_cases a <;> decide

/-- A leading whitespace character is skipped by `scanInt`. -/
theorem scanInt_cons_ws (c : Char) (hc : isWS c = true) (l : List Char) :
    scanInt (c :: l) = scanInt l := by
  simp only [scanInt, skipWS, hc, if_true]

/-- A leading whitespace character is skipped by `scanStr`. -/
theorem scanStr_cons_ws (n : Nat) (c : Char) (hc : isWS c = true) (l : List Char) :
    scanStr n (c :: l) = scanStr n l := by
  simp only [scanStr, skipWS, hc, if_true]

/-- A matching literal is consumed. -/
theorem scanLit_cons (c : Char) (l : List Char) : scanLit c (c :: l) = some l := by
  simp [scanLit]

/-- Scanning three leading non-whitespace characters with `%3s`. -/
theorem scanStr_3chars (c1 c2 c3 : Char) (h1 : isWS c1 = false) (h2 : isWS c2 = false)
    (h3 : isWS c3 = false) (rest : List Char) :
    scanStr 3 (c1 :: c2 :: c3 :: rest) = some (String.mk [c1, c2, c3], rest) := by
  simp only [scanStr, skipWS, takeNonWS, h1, h2, h3, Bool.false_eq_true, if_false,
    List.isEmpty_cons]

/-- Scanning the two-digit rendering of `x` followed by a non-digit
recovers `x`. -/
theorem scanInt_fmt2 (x : Int) (h0 : 0 ≤ x) (h99 : x ≤ 99) (c : Char)
    (hc : c.isDigit = false) (rest : List Char) :
    scanInt ((fmt2 x).data ++ c :: rest) = some (x, c :: rest) := by
  have hdata : (fmt2 x).data = [Nat.digitChar (x.toNat / 10), Nat.digitChar (x.toNat % 10)] := rfl
  have ha : x.toNat / 10 < 10 := by omega
  have hb : x.toNat % 10 < 10 := by omega
  rw [hdata]
  simp only [List.cons_append, List.nil_append, scanInt, skipWS, digitChar_not_ws ha,
    Bool.false_eq_true, if_false, digitChar_ne_minus ha, digitChar_ne_plus ha,
    scanDigits, digitChar_isDigit ha, if_true, scanNatAux, digitChar_isDigit hb, hc,
    digitVal_digitChar ha, digitVal_digitChar hb, Option.map]
  have hval : 10 * (x.toNat / 10) + x.toNat % 10 = x.toNat := by omega
  rw [hval, Int.toNat_of_nonneg h0]

/-- Scanning the four-digit rendering of `y` followed by a non-digit
recovers `y`. -/
theorem scanInt_fmt4 (y : Int) (h0 : 0 ≤ y) (h9999 : y ≤ 9999) (c : Char)
    (hc : c.isDigit = false) (rest : List Char) :
    scanInt ((fmt4 y).data ++ c :: rest) = some (y, c :: rest) := by
  have hdata : (fmt4 y).data = [Nat.digitChar (y.toNat / 1000),
      Nat.digitChar (y.toNat / 100 % 10), Nat.digitChar (y.toNat / 10 % 10),
      Nat.digitChar (y.toNat % 10)] := rfl
  have ha : y.toNat / 1000 < 10 := by omega
  have hb : y.toNat / 100 % 10 < 10 := by omega
  have hcc : y.toNat / 10 % 10 < 10 := by omega
  have hd : y.toNat % 10 < 10 := by omega
  rw [hdata]
  simp only [List.cons_append, List.nil_append, scanInt, skipWS, digitChar_not_ws ha,
    Bool.false_eq_true, if_false, digitChar_ne_minus ha, digitChar_ne_plus ha,
    scanDigits, digitChar_isDigit ha, if_true, scanNatAux, digitChar_isDigit hb,
    digitChar_isDigit hcc, digitChar_isDigit hd, hc,
    digitVal_digitChar ha, digitVal_digitChar hb, digitVal_digitChar hcc,
    digitVal_digitChar hd, Option.map]
  have hval : 10 * (10 * (10 * (y.toNat / 1000) + y.toNat / 100 % 10) +
      y.toNat / 10 % 10) + y.toNat % 10 = y.toNat := by omega
  rw [hval, Int.toNat_of_nonneg h0]

/-- Every weekday name is three non-whitespace characters. -/
theorem weekday_name_chars (wd : String) (h : wd ∈ weekday_names) :
    ∃ c1 c2 c3, wd.data = [c1, c2, c3] ∧
      isWS c1 = false ∧ isWS c2 = false ∧ isWS c3 = false := by
  fin_cases h <;> exact ⟨_, _, _, rfl, rfl, rfl, rfl⟩

/-- Every month name is three non-whitespace characters. -/
theorem month_name_chars (mon : String) (h : mon ∈ month_names) :
    ∃ c1 c2 c3, mon.data = [c1, c2, c3] ∧
      isWS c1 = false ∧ isWS c2 = false ∧ isWS c3 = false := by
  fin_cases h <;> exact ⟨_, _, _, rfl, rfl, rfl, rfl⟩

/-- Formatting the parsed weekday index recovers the weekday name. -/
theorem weekday_getD_parse (wd : String) (h : wd ∈ weekday_names) :
    weekday_names.getD (parse_weekday wd).toNat "" = wd := by
  fin_cases h <;> rfl

/-- Formatting the parsed month number recovers the month name. -/
theorem month_getD_parse (mon : String) (h : mon ∈ month_names) :
    month_names.getD (parse_month mon - 1).toNat "" = mon := by
  fin_cases h <;> rfl

/-- The sscanf model recovers the seven fields from a well-formed
HTTP-Date layout. -/
theorem parse_httpDateString (wd : String) (day : Int) (mon : String)
    (year hour minute second : Int)
    (hwd : wd ∈ weekday_names) (hmon : mon ∈ month_names)
    (hd0 : 0 ≤ day) (hd99 : day ≤ 99) (hy0 : 0 ≤ year) (hy9999 : year ≤ 9999)
    (hh0 : 0 ≤ hour) (hh99 : hour ≤ 99) (hm0 : 0 ≤ minute) (hm99 : minute ≤ 99)
    (hs0 : 0 ≤ second) (hs99 : second ≤ 99) :
    parseHTTPFields (httpDateString wd day mon year hour minute second) =
      some (wd, day, mon, year, hour, minute, second) := by
  obtain ⟨w1, w2, w3, hwdata, hw1, hw2, hw3⟩ := weekday_name_chars wd hwd
  obtain ⟨m1, m2, m3, hmdata, hmc1, hmc2, hmc3⟩ := month_name_chars mon hmon
  have hwdstr : wd = String.mk [w1, w2, w3] := String.ext hwdata
  have hmonstr : mon = String.mk [m1, m2, m3] := String.ext hmdata
  subst hwdstr hmonstr
  have hc1 : (", " : String).data = [',', ' '] := rfl
  have hc2 : (" " : String).data = [' '] := rfl
  have hc3 : (":" : String).data = [':'] := rfl
  have hc4 : (" GMT" : String).data = [' ', 'G', 'M', 'T'] := rfl
  have hmk : (String.mk [w1, w2, w3]).data = [w1, w2, w3] := rfl
  have hmk2 : (String.mk [m1, m2, m3]).data = [m1, m2, m3] := rfl
  have hdata : (httpDateString (String.mk [w1, w2, w3]) day (String.mk [m1, m2, m3])
      year hour minute second).data =
      w1 :: w2 :: w3 :: ',' :: ' ' :: ((fmt2 day).data ++ ' ' ::
        m1 :: m2 :: m3 :: ' ' :: ((fmt4 year).data ++ ' ' ::
          ((fmt2 hour).data ++ ':' :: ((fmt2 minute).data ++ ':' ::
            ((fmt2 second).data ++ ' ' :: 'G' :: 'M' :: 'T' :: []))))) := by
    simp only [httpDateString, String.data_append, hc1, hc2, hc3, hc4, hmk, hmk2,
      List.cons_append, List.nil_append, List.append_assoc]
  simp only [parseHTTPFields, hdata, scanStr_3chars w1 w2 w3 hw1 hw2 hw3,
    Option.bind_eq_bind, Option.some_bind, scanLit_cons,
    scanInt_cons_ws ' ' rfl, scanInt_fmt2 day hd0 hd99 ' ' rfl,
    scanStr_cons_ws 3 ' ' rfl, scanStr_3chars m1 m2 m3 hmc1 hmc2 hmc3,
    scanInt_fmt4 year hy0 hy9999 ' ' rfl,
    scanInt_fmt2 hour hh0 hh99 ':' rfl,
    scanInt_fmt2 minute hm0 hm99 ':' rfl,
    scanInt_fmt2 second hs0 hs99 ' ' rfl]
  rfl

/-- Round-trip of a well-formed HTTP-Date string through parsing at
offset 0 and formatting: the output is the input with the explicit
offset suffix `"+0"` appended after `"GMT"`. -/
theorem roundtrip_helper (s : String) (h : WellFormedHTTP s) :
    ∃ d : Arcdate, generate_date s 0 = some d ∧ to_date_string d = s ++ "+0" := by
  obtain ⟨wd, day, mon, year, hour, minute, second, hwdm, hmonm, hy0, hy1, hd0, hd1,
    hh0, hh1, hmi0, hmi1, hs0, hs1, rfl⟩ := h
  have hpmr := parse_month_range mon
  have hpwr := parse_weekday_range wd
  have hd99 : day ≤ 99 := by
    have := days_in_month_le_31 year hpmr.1 hpmr.2
    omega
  have hp := parse_httpDateString wd day mon year hour minute second hwdm hmonm
    (by omega) hd99 hy0 hy1 (by omega) (by omega) (by omega) (by omega)
    (by omega) (by omega)
  have hval : generate_date (httpDateString wd day mon year hour minute second) 0 =
      some { year := year, month := parse_month mon, day := day, hour := hour,
             minute := minute, second := second, weekday := parse_weekday wd,
             gmt_offset := 0 } := by
    simp only [generate_date, hp]
    rw [add_hours_zero]
    exact ⟨hpmr.1, hpmr.2, hd0, hd1, hh0, hh1, hmi0, hmi1, hpwr.1, hpwr.2⟩
  refine ⟨_, hval, ?_⟩
  show to_date_string { year := year, month := parse_month mon, day := day,
                        hour := hour, minute := minute, second := second,
                        weekday := parse_weekday wd, gmt_offset := 0 } =
    httpDateString wd day mon year hour minute second ++ "+0"
  unfold to_date_string httpDateString
  dsimp only
  rw [weekday_getD_parse wd hwdm, month_getD_parse mon hmonm]
  have hfs : fmtSigned 0 = "+0" := rfl
  rw [hfs]

/-- Claim C2 (counterexample): formatting the parse of the well-formed
string "Wed, 21 Oct 2015 07:28:00 GMT" at offset 0 does NOT reproduce
it exactly — the formatter renders the offset explicitly, yielding
"... GMT+0". -/
theorem claim_C2_counterexample :
    Option.map to_date_string
      (generate_date "Wed, 21 Oct 2015 07:28:00 GMT" 0) ≠
      some "Wed, 21 Oct 2015 07:28:00 GMT" := by
  have hwf : WellFormedHTTP "Wed, 21 Oct 2015 07:28:00 GMT" :=
    ⟨"Wed", 21, "Oct", 2015, 7, 28, 0, by decide, by decide, by decide, by decide,
     by decide, by decide, by decide, by decide, by decide, by decide, by decide,
     by decide, by decide⟩
  obtain ⟨d, hgen, hfmt⟩ := roundtrip_helper _ hwf
  rw [hgen, Option.map_some', hfmt]
  decide

/-- Claim C2 (amended): parsing a well-formed HTTP-Date string at
offset 0 succeeds, and formatting the result reproduces the input
with the explicit offset rendering `"+0"` appended after "GMT"
(field-for-field the round trip is exact; only the offset suffix
differs from the input layout). -/
theorem claim_C2_roundtrip (s : String) (h : WellFormedHTTP s) :
    ∃ d : Arcdate, generate_date s 0 = some d ∧ to_date_string d = s ++ "+0" :=
  roundtrip_helper s h

/-- Claim C2 (amended) witness at "Wed, 21 Oct 2015 07:28:00 GMT". -/
theorem claim_C2_witness :
    WellFormedHTTP "Wed, 21 Oct 2015 07:28:00 GMT" ∧
    ∃ d : Arcdate, generate_date "Wed, 21 Oct 2015 07:28:00 GMT" 0 = some d ∧
      to_date_string d = "Wed, 21 Oct 2015 07:28:00 GMT" ++ "+0" := by
  have hwf : WellFormedHTTP "Wed, 21 Oct 2015 07:28:00 GMT" :=
    ⟨"Wed", 21, "Oct", 2015, 7, 28, 0, by decide, by decide, by decide, by decide,
     by decide, by decide, by decide, by decide, by decide, by decide, by decide,
     by decide, by decide⟩
  exact ⟨hwf, claim_C2_roundtrip _ hwf⟩

/-- Claim C8: an unknown weekday abbreviation resolves to the default
Sunday (index 0) and an unknown month abbreviation resolves to the
default January (1); parsing does not fail, as witnessed by a
structurally valid date string with unknown names producing a
timestamp with the default weekday and month. -/
theorem claim_C8_unknown_names (s t : String)
    (hs : s ∉ weekday_names) (ht : t ∉ month_names) :
    (parse_weekday s = 0 ∧ parse_month t = 1) ∧
    generate_date "Xyz, 21 Abc 2015 07:28:00 GMT" 0 =
      some ⟨2015, 1, 21, 7, 28, 0, 0, 0⟩ := by
  refine ⟨⟨?_, ?_⟩, ?_⟩
  · unfold parse_weekday
    rw [name_index_none s weekday_names 0 hs]
  · unfold parse_month
    rw [name_index_none t month_names 0 ht]
  · have hp : parseHTTPFields "Xyz, 21 Abc 2015 07:28:00 GMT" =
        some ("Xyz", 21, "Abc", 2015, 7, 28, 0) := by rfl
    simp only [generate_date, hp]
    rw [add_hours_zero _ (by decide)]
    decide

/-- Claim C8 witness at the unknown names "Xyz" and "Foo". -/
theorem claim_C8_witness :
    "Xyz" ∉ weekday_names ∧ "Foo" ∉ month_names ∧
    ((parse_weekday "Xyz" = 0 ∧ parse_month "Foo" = 1) ∧
     generate_date "Xyz, 21 Abc 2015 07:28:00 GMT" 0 =
       some ⟨2015, 1, 21, 7, 28, 0, 0, 0⟩) :=
  ⟨by decide, by decide, claim_C8_unknown_names "Xyz" "Foo" (by decide) (by decide)⟩
